import Mathlib

set_option maxRecDepth 100000

/-!
Verification of the PSP documentation-processing core of the perspt repository.

The two pieces of logic under verification live in
`docs/psps/psp_sphinx_extensions/psp_processor/parsing/`:

* `PSPParser._process_psp_preamble` (the parser module): scans the leading lines of
  a document for a colon-separated metadata preamble ending at the first blank
  line and rewrites it into a raw-HTML two-column table, leaving the rest of the
  document unchanged.  The spec calls this function `reformat`.
* `PSPRole.process_link` (psp_role.py): normalizes a PSP cross-reference target,
  turning an all-digit target into a `psp-NNNNNN` canonical target plus a
  `PSP n` display title.  The spec calls this function `normalize`.

Text is modelled as a list of characters (`Str`), so Python string primitives
(`split`, `strip`, `startswith`, `in`, `isdigit`, `int`, zero-padded formatting)
are given explicit executable definitions below, restricted to the ASCII
fragment in which the PSP documents are written.
-/

/-- A Python string, modelled as its list of characters. -/
abbrev Str := List Char

/-- The ASCII whitespace characters stripped by Python `str.strip()`. -/
def isPySpace (c : Char) : Bool :=
  c = ' ' || c = '\t' || c = '\n' || c = '\r' || c = '\x0b' || c = '\x0c'

/-- Python `s.strip()`: remove leading and trailing whitespace. -/
def pyStrip (s : Str) : Str :=
  ((s.dropWhile isPySpace).reverse.dropWhile isPySpace).reverse

/-- Python `s.startswith(' ')`: the first character is a space. -/
def startsWithSpace (s : Str) : Bool :=
  match s with
  | [] => false
  | c :: _ => c = ' '

/-- Python `s.startswith('0')`: the first character is the digit zero. -/
def startsWithZero (s : Str) : Bool :=
  match s with
  | [] => false
  | c :: _ => c = '0'

/-- Python `':' in s`. -/
def hasColon (s : Str) : Bool := s.contains ':'

/-- Python `text.split('\n')`: split into lines at every newline character.
The result is always nonempty; the empty string splits to `[[]]`. -/
def splitLines : Str → List Str
  | [] => [[]]
  | c :: rest =>
    if c = '\n' then [] :: splitLines rest
    else
      match splitLines rest with
      | [] => [[c]]
      | l :: ls => (c :: l) :: ls

/-- Python `'\n'.join(lines)`. -/
def joinLines : List Str → Str
  | [] => []
  | [l] => l
  | l :: l2 :: ls => l ++ '\n' :: joinLines (l2 :: ls)

/-- Python `line.split(':', 1)` for a line containing a colon: the text before
the first colon and the text after it (which may itself contain colons). -/
def splitFirstColon : Str → Str × Str
  | [] => ([], [])
  | c :: rest =>
    if c = ':' then ([], rest)
    else ((splitFirstColon rest).1.cons c, (splitFirstColon rest).2)

/-- The preamble-field test of `_process_psp_preamble`:
`':' in line and not line.startswith(' ')`. -/
def isField (line : Str) : Bool := hasColon line && !startsWithSpace line

/-- The preamble-extraction loop of `_process_psp_preamble`, started at line
index `i`.  `none` models the early `return text` (a line in preamble position
that is neither blank nor a field); `some (preamble_lines, preamble_end)`
models falling out of the loop, either by `break` at the first blank line
(whose index becomes `preamble_end`) or by exhausting the lines (in which case
`preamble_end` keeps its initial value `0`). -/
def scanPreamble : List Str → Nat → Option (List Str × Nat)
  | [], _ => some ([], 0)
  | line :: rest, i =>
    if pyStrip line = [] then some ([], i)
    else if isField line then
      match scanPreamble rest (i + 1) with
      | none => none
      | some (pl, e) => some (line :: pl, e)
    else none

/-- The first four lines appended to `formatted_preamble`: the raw-HTML
directive, a blank line, and the table wrappers. -/
def headerBlock : List Str :=
  [(".. raw:: html").toList,
   [],
   ("   <div class=\"psp-preamble-table\">").toList,
   ("   <table class=\"psp-preamble\">").toList]

/-- The closing lines of `formatted_preamble`: table/wrapper markers and one
blank line. -/
def footerBlock : List Str :=
  [("   </table>").toList, ("   </div>").toList, []]

/-- One `<tr>` table row for a preamble field line: the text before the first
colon, stripped, with a trailing colon; and the text after the first colon,
stripped, otherwise verbatim. -/
def fieldRow (line : Str) : Str :=
  ("   <tr><td class=\"psp-field\">").toList
    ++ pyStrip (splitFirstColon line).1
    ++ (":</td><td class=\"psp-value\">").toList
    ++ pyStrip (splitFirstColon line).2
    ++ ("</td></tr>").toList

/-- The row-emission loop of `_process_psp_preamble`:
`if ':' in line and line.strip():` guards each appended row. -/
def rowBlock (preambleLines : List Str) : List Str :=
  preambleLines.filterMap fun line =>
    if hasColon line && !(pyStrip line == []) then some (fieldRow line) else none

/-- `PSPParser._process_psp_preamble` (parser module, lines 25-78).
`lines = text.split('\n')` appears as `splitLines text` at both of its use
sites. -/
def process_psp_preamble (text : Str) : Str :=
  match scanPreamble (splitLines text) 0 with
  | none => text
  | some (preambleLines, preambleEnd) =>
    if preambleLines = [] then text
    else
      joinLines (headerBlock ++ rowBlock preambleLines ++ footerBlock
        ++ (splitLines text).drop preambleEnd)

/-- The name the spec (§4.1) gives to `_process_psp_preamble`. -/
def reformat : Str → Str := process_psp_preamble

/-- Python `s.isdigit()` on the ASCII fragment: nonempty and all decimal
digits. -/
def isdigit (s : Str) : Bool :=
  !(s == []) && s.all fun c => '0' ≤ c && c ≤ '9'

/-- The numeric value of one decimal digit character. -/
def digitVal (c : Char) : Nat := c.toNat - 48

/-- Python `int(s)` for a decimal digit string. -/
def pyInt (s : Str) : Nat := s.foldl (fun a c => a * 10 + digitVal c) 0

/-- The decimal digit character for `d < 10`. -/
def digitChar10 (d : Nat) : Char :=
  if d = 0 then '0' else if d = 1 then '1' else if d = 2 then '2'
  else if d = 3 then '3' else if d = 4 then '4' else if d = 5 then '5'
  else if d = 6 then '6' else if d = 7 then '7' else if d = 8 then '8'
  else '9'

/-- Decimal rendering of a natural number, most significant digit first,
computed with an explicit fuel argument (any fuel above the input works). -/
def natToDigitsAux : Nat → Nat → Str
  | 0, _ => []
  | fuel + 1, n =>
    if n < 10 then [digitChar10 n]
    else natToDigitsAux fuel (n / 10) ++ [digitChar10 (n % 10)]

/-- Python `str(n)` — the plain f-string rendering of a natural number:
decimal, no leading zeros. -/
def natToDigits (n : Nat) : Str := natToDigitsAux (n + 1) n

/-- The Python `06d` format of a natural number: the decimal digits of `n`,
left-padded with zeros to at least six characters. -/
def pad6 (n : Nat) : Str :=
  List.replicate (6 - (natToDigits n).length) '0' ++ natToDigits n

/-- `PSPRole.process_link` (psp_role.py, lines 13-27).  The `env` and
`refnode` arguments of the hook are kept (at arbitrary types, since the body
never inspects them). -/
def process_link {α β : Type} (env : α) (refnode : β)
    (has_explicit_title : Bool) (title target : Str) : Str × Str :=
  if !has_explicit_title then
    if isdigit target then
      (("PSP ").toList ++ natToDigits (pyInt target),
       ("psp-").toList ++ pad6 (pyInt target))
    else if startsWithZero target && isdigit target then
      (("PSP ").toList ++ natToDigits (pyInt target),
       ("psp-").toList ++ pad6 (pyInt target))
    else (title, target)
  else (title, target)

/-- Modelled from the spec (§4.2, §9): the clean single-branch normalizer the
spec says is equivalent to the two-branch source implementation — only the
digit-only branch, no special case for zero-padded strings. -/
def normalize_single_branch (has_explicit_title : Bool)
    (title target : Str) : Str × Str :=
  if !has_explicit_title then
    if isdigit target then
      (("PSP ").toList ++ natToDigits (pyInt target),
       ("psp-").toList ++ pad6 (pyInt target))
    else (title, target)
  else (title, target)

/-- Python `str.isdigit` on one character, on the character fragment used
here: beyond the ASCII decimal digits it also accepts the superscript digits
(U+00B9, U+00B2, U+00B3), which have Unicode numeric type Digit.  This is
the behavior of the guard `target.isdigit()` in `process_link`. -/
def isPyDigitChar (c : Char) : Bool :=
  ('0' ≤ c && c ≤ '9') || c = '¹' || c = '²' || c = '³'

/-- Python `s.isdigit()` on the same fragment: nonempty and every character
accepted by `str.isdigit` — including the superscript digits that `int`
rejects. -/
def pyIsdigit (s : Str) : Bool := !(s == []) && s.all isPyDigitChar

/-- Python `int(s)` with its failure made explicit: on the character fragment
used here `int` succeeds exactly on nonempty strings of decimal digits
(Unicode category Nd; here the ASCII digits) and raises ValueError — `none`
— on anything else, in particular on the superscript digits accepted by
`str.isdigit`. -/
def pyIntOpt (s : Str) : Option Nat :=
  if isdigit s then some (pyInt s) else none

/-- `PSPRole.process_link` (psp_role.py, lines 13-27) with the Python
exception channel made explicit: the branch guards use `str.isdigit` as the
source does, the call `int(target)` is the fallible `pyIntOpt`, and an
uncaught ValueError propagating out of the hook is `none`. -/
def process_link_exc (has_explicit_title : Bool) (title target : Str) :
    Option (Str × Str) :=
  if !has_explicit_title then
    if pyIsdigit target then
      match pyIntOpt target with
      | none => none
      | some n =>
        some (("PSP ").toList ++ natToDigits n, ("psp-").toList ++ pad6 n)
    else if startsWithZero target && pyIsdigit target then
      match pyIntOpt target with
      | none => none
      | some n =>
        some (("PSP ").toList ++ natToDigits n, ("psp-").toList ++ pad6 n)
    else some (title, target)
  else some (title, target)

/-! ### Properties of line splitting and joining -/

theorem splitLines_ne_nil (s : Str) : splitLines s ≠ [] := by
  induction s with
  | nil => simp [splitLines]
  | cons c rest ih =>
    simp only [splitLines]
    split
    · simp
    · cases h : splitLines rest with
      | nil => simp
      | cons l ls => simp

theorem not_newline_mem_splitLines (s : Str) :
    ∀ l ∈ splitLines s, '\n' ∉ l := by
  induction s with
  | nil =>
    intro l hl
    simp [splitLines] at hl
    simp [hl]
  | cons c rest ih =>
    intro l hl
    simp only [splitLines] at hl
    by_cases hc : c = '\n'
    · simp [hc] at hl
      rcases hl with h | h
      · simp [h]
      · exact ih l h
    · simp [hc] at hl
      cases h : splitLines rest with
      | nil => exact absurd h (splitLines_ne_nil rest)
      | cons m ms =>
        rw [h] at hl
        rcases List.mem_cons.mp hl with h1 | h1
        · subst h1
          intro hmem
          rcases List.mem_cons.mp hmem with h2 | h2
          · exact hc h2.symm
          · exact ih m (h ▸ List.mem_cons_self m ms) h2
        · exact ih l (h ▸ List.mem_cons_of_mem m h1)

theorem splitLines_of_not_newline (x : Str) (h : '\n' ∉ x) :
    splitLines x = [x] := by
  induction x with
  | nil => rfl
  | cons c rest ih =>
    have hc : ¬ c = '\n' := fun hc => h (hc ▸ List.mem_cons_self c rest)
    have hr : '\n' ∉ rest := fun hm => h (List.mem_cons_of_mem c hm)
    simp only [splitLines, hc, if_false, ih hr]

theorem splitLines_append_newline (x r : Str) (h : '\n' ∉ x) :
    splitLines (x ++ '\n' :: r) = x :: splitLines r := by
  induction x with
  | nil => simp [splitLines]
  | cons c rest ih =>
    have hc : ¬ c = '\n' := fun hc => h (hc ▸ List.mem_cons_self c rest)
    have hr : '\n' ∉ rest := fun hm => h (List.mem_cons_of_mem c hm)
    simp only [List.cons_append, splitLines, hc, if_false, List.append_eq, ih hr]

theorem splitLines_joinLines (L : List Str) (hne : L ≠ [])
    (h : ∀ l ∈ L, '\n' ∉ l) : splitLines (joinLines L) = L := by
  induction L with
  | nil => exact absurd rfl hne
  | cons l ls ih =>
    cases ls with
    | nil =>
      simp only [joinLines]
      exact splitLines_of_not_newline l (h l (List.mem_cons_self l []))
    | cons l2 t =>
      simp only [joinLines]
      rw [splitLines_append_newline l _ (h l (List.mem_cons_self l (l2 :: t)))]
      rw [ih (by simp) (fun m hm => h m (List.mem_cons_of_mem l hm))]

/-! ### Membership facts about stripping and colon splitting -/

theorem mem_of_mem_dropWhile {p : Char → Bool} {c : Char} :
    ∀ {s : Str}, c ∈ s.dropWhile p → c ∈ s := by
  intro s h
  exact (List.dropWhile_sublist (l := s) (p := p)).subset h

theorem mem_dropWhile_of_not {p : Char → Bool} {c : Char} :
    ∀ {s : Str}, c ∈ s → p c = false → c ∈ s.dropWhile p := by
  intro s
  induction s with
  | nil => intro h _; simp at h
  | cons a t ih =>
    intro h hp
    rcases List.mem_cons.mp h with h1 | h1
    · subst h1
      simp [List.dropWhile, hp]
    · by_cases ha : p a
      · simpa [List.dropWhile, ha] using ih h1 hp
      · simp [List.dropWhile, ha, List.mem_cons, h1]

theorem mem_of_mem_pyStrip {c : Char} {s : Str} (h : c ∈ pyStrip s) :
    c ∈ s := by
  unfold pyStrip at h
  rw [List.mem_reverse] at h
  have h2 := mem_of_mem_dropWhile h
  rw [List.mem_reverse] at h2
  exact mem_of_mem_dropWhile h2

theorem mem_pyStrip_of_not_space {c : Char} {s : Str} (h : c ∈ s)
    (hc : isPySpace c = false) : c ∈ pyStrip s := by
  unfold pyStrip
  rw [List.mem_reverse]
  apply mem_dropWhile_of_not _ hc
  rw [List.mem_reverse]
  exact mem_dropWhile_of_not h hc

theorem pyStrip_ne_nil_of_hasColon {l : Str} (h : hasColon l = true) :
    pyStrip l ≠ [] := by
  have hm : ':' ∈ l := by
    unfold hasColon at h
    simpa using h
  have : ':' ∈ pyStrip l := mem_pyStrip_of_not_space hm (by decide)
  intro hnil
  rw [hnil] at this
  simp at this

theorem mem_splitFirstColon_fst {c : Char} :
    ∀ {s : Str}, c ∈ (splitFirstColon s).1 → c ∈ s := by
  intro s
  induction s with
  | nil => intro h; simp [splitFirstColon] at h
  | cons a t ih =>
    intro h
    simp only [splitFirstColon] at h
    by_cases ha : a = ':'
    · simp [ha] at h
    · simp only [ha, if_false] at h
      rcases List.mem_cons.mp h with h1 | h1
      · exact h1 ▸ List.mem_cons_self a t
      · exact List.mem_cons_of_mem a (ih h1)

theorem mem_splitFirstColon_snd {c : Char} :
    ∀ {s : Str}, c ∈ (splitFirstColon s).2 → c ∈ s := by
  intro s
  induction s with
  | nil => intro h; simp [splitFirstColon] at h
  | cons a t ih =>
    intro h
    simp only [splitFirstColon] at h
    by_cases ha : a = ':'
    · simp only [ha, if_true] at h
      exact List.mem_cons_of_mem a h
    · simp only [ha, if_false] at h
      exact List.mem_cons_of_mem a (ih h)

theorem not_newline_fieldRow {l : Str} (h : '\n' ∉ l) :
    '\n' ∉ fieldRow l := by
  unfold fieldRow
  intro hm
  simp only [List.mem_append] at hm
  rcases hm with ((((h1 | h1) | h1) | h1) | h1)
  · revert h1; decide
  · exact h (mem_splitFirstColon_fst (mem_of_mem_pyStrip h1))
  · revert h1; decide
  · exact h (mem_splitFirstColon_snd (mem_of_mem_pyStrip h1))
  · revert h1; decide

/-! ### Behavior of the preamble-extraction loop -/

theorem pyStrip_ne_nil_of_isField {l : Str} (h : isField l = true) :
    pyStrip l ≠ [] := by
  unfold isField at h
  exact pyStrip_ne_nil_of_hasColon (Bool.and_elim_left h)

theorem scanPreamble_wellformed (fields : List Str) (blankLine : Str)
    (rest : List Str) (i : Nat) (hf : ∀ l ∈ fields, isField l = true)
    (hb : pyStrip blankLine = []) :
    scanPreamble (fields ++ blankLine :: rest) i
      = some (fields, i + fields.length) := by
  induction fields generalizing i with
  | nil => simp [scanPreamble, hb]
  | cons f fs ih =>
    have hff : isField f = true := hf f (List.mem_cons_self f fs)
    have hfs : pyStrip f ≠ [] := pyStrip_ne_nil_of_isField hff
    have ihr := ih (i + 1) (fun l hl => hf l (List.mem_cons_of_mem f hl))
    have heq : i + 1 + fs.length = i + (fs.length + 1) := by omega
    simp only [List.cons_append, scanPreamble, hfs, if_false, hff, if_true,
      List.append_eq, ihr, List.length_cons, heq]

theorem scanPreamble_allFields (fields : List Str) (i : Nat)
    (hf : ∀ l ∈ fields, isField l = true) :
    scanPreamble fields i = some (fields, 0) := by
  induction fields generalizing i with
  | nil => simp [scanPreamble]
  | cons f fs ih =>
    have hff : isField f = true := hf f (List.mem_cons_self f fs)
    have hfs : pyStrip f ≠ [] := pyStrip_ne_nil_of_isField hff
    have ihr := ih (i + 1) (fun l hl => hf l (List.mem_cons_of_mem f hl))
    simp [scanPreamble, hfs, hff, ihr]

theorem scanPreamble_abort (pre : List Str) (bad : Str) (rest : List Str)
    (i : Nat) (hp : ∀ l ∈ pre, isField l = true)
    (hb1 : pyStrip bad ≠ []) (hb2 : isField bad = false) :
    scanPreamble (pre ++ bad :: rest) i = none := by
  induction pre generalizing i with
  | nil => simp [scanPreamble, hb1, hb2]
  | cons f fs ih =>
    have hff : isField f = true := hp f (List.mem_cons_self f fs)
    have hfs : pyStrip f ≠ [] := pyStrip_ne_nil_of_isField hff
    have ihr := ih (i + 1) (fun l hl => hp l (List.mem_cons_of_mem f hl))
    simp [scanPreamble, hfs, hff, ihr]

theorem mem_of_scanPreamble (ls : List Str) (i : Nat) (pl : List Str)
    (e : Nat) (h : scanPreamble ls i = some (pl, e)) : ∀ l ∈ pl, l ∈ ls := by
  induction ls generalizing i pl e with
  | nil =>
    intro l hl
    simp [scanPreamble] at h
    rw [h.1] at hl
    simp at hl
  | cons line rest ih =>
    intro l hl
    simp only [scanPreamble] at h
    by_cases h1 : pyStrip line = []
    · simp [h1] at h
      rw [h.1] at hl
      simp at hl
    · by_cases h2 : isField line
      · simp only [h1, if_false, h2, if_true] at h
        cases hrec : scanPreamble rest (i + 1) with
        | none => rw [hrec] at h; simp at h
        | some pe =>
          rw [hrec] at h
          simp at h
          rw [← h.1] at hl
          rcases List.mem_cons.mp hl with h3 | h3
          · exact h3 ▸ List.mem_cons_self line rest
          · exact List.mem_cons_of_mem line (ih (i + 1) pe.1 pe.2
              (by rw [hrec]) l h3)
      · simp [h1, h2] at h

theorem rowBlock_eq_map (pls : List Str)
    (h : ∀ l ∈ pls, isField l = true) : rowBlock pls = pls.map fieldRow := by
  induction pls with
  | nil => rfl
  | cons l t ih =>
    have hl : isField l = true := h l (List.mem_cons_self l t)
    have hcolon : hasColon l = true := by
      unfold isField at hl
      exact Bool.and_elim_left hl
    have hne : pyStrip l ≠ [] := pyStrip_ne_nil_of_hasColon hcolon
    have hbeq : (pyStrip l == []) = false := by
      simpa using hne
    simp only [rowBlock, List.filterMap_cons, hcolon, hbeq, Bool.not_false,
      Bool.and_true, if_true, List.map_cons]
    rw [← rowBlock]
    rw [ih (fun m hm => h m (List.mem_cons_of_mem l hm))]

/-! ### Decimal rendering and parsing -/

theorem natToDigitsAux_stable (f1 : Nat) :
    ∀ f2 n, n < f1 → n < f2 → natToDigitsAux f1 n = natToDigitsAux f2 n := by
  induction f1 with
  | zero => intro f2 n h1 _; omega
  | succ g1 ih =>
    intro f2 n h1 h2
    cases f2 with
    | zero => omega
    | succ g2 =>
      simp only [natToDigitsAux]
      by_cases h10 : n < 10
      · simp [h10]
      · have hdiv : n / 10 < n := Nat.div_lt_self (by omega) (by omega)
        simp only [h10, if_false]
        rw [ih g2 (n / 10) (by omega) (by omega)]

theorem natToDigits_unfold (n : Nat) :
    natToDigits n = if n < 10 then [digitChar10 n]
      else natToDigits (n / 10) ++ [digitChar10 (n % 10)] := by
  have e1 : natToDigits n
      = if n < 10 then [digitChar10 n]
        else natToDigitsAux n (n / 10) ++ [digitChar10 (n % 10)] := rfl
  rw [e1]
  by_cases h10 : n < 10
  · simp [h10]
  · have hdiv : n / 10 < n := Nat.div_lt_self (by omega) (by omega)
    simp only [h10, if_false]
    rw [natToDigitsAux_stable n (n / 10 + 1) (n / 10) (by omega) (by omega)]
    rfl

theorem digitVal_digitChar10 (d : Nat) (h : d < 10) :
    digitVal (digitChar10 d) = d := by
  interval_cases d <;> decide

theorem digitChar10_is_digit (d : Nat) (h : d < 10) :
    ('0' ≤ digitChar10 d && digitChar10 d ≤ '9') = true := by
  interval_cases d <;> decide

theorem pyInt_append_singleton (s : Str) (c : Char) :
    pyInt (s ++ [c]) = pyInt s * 10 + digitVal c := by
  simp [pyInt, List.foldl_append]

theorem pyInt_natToDigits (n : Nat) : pyInt (natToDigits n) = n := by
  induction n using Nat.strong_induction_on with
  | _ n ih =>
    rw [natToDigits_unfold]
    by_cases h10 : n < 10
    · simp only [h10, if_true]
      show 0 * 10 + digitVal (digitChar10 n) = n
      rw [digitVal_digitChar10 n h10]
      omega
    · have hdiv : n / 10 < n := Nat.div_lt_self (by omega) (by omega)
      have hmod : n % 10 < 10 := Nat.mod_lt n (by omega)
      simp only [h10, if_false]
      rw [pyInt_append_singleton, ih (n / 10) hdiv,
        digitVal_digitChar10 (n % 10) hmod]
      omega

theorem natToDigits_all_digits (n : Nat) :
    ∀ c ∈ natToDigits n, ('0' ≤ c && c ≤ '9') = true := by
  induction n using Nat.strong_induction_on with
  | _ n ih =>
    intro c hc
    rw [natToDigits_unfold] at hc
    by_cases h10 : n < 10
    · simp only [h10, if_true] at hc
      simp at hc
      exact hc ▸ digitChar10_is_digit n h10
    · have hdiv : n / 10 < n := Nat.div_lt_self (by omega) (by omega)
      have hmod : n % 10 < 10 := Nat.mod_lt n (by omega)
      simp only [h10, if_false, List.mem_append] at hc
      rcases hc with hc | hc
      · exact ih (n / 10) hdiv c hc
      · simp at hc
        exact hc ▸ digitChar10_is_digit (n % 10) hmod

theorem natToDigits_ne_nil (n : Nat) : natToDigits n ≠ [] := by
  rw [natToDigits_unfold]
  by_cases h10 : n < 10 <;> simp [h10]

theorem foldl_pyInt_zeros (k : Nat) :
    List.foldl (fun a c => a * 10 + digitVal c) 0 (List.replicate k '0') = 0 := by
  induction k with
  | zero => rfl
  | succ m ih => simpa [List.replicate_succ, List.foldl_cons] using ih

theorem pyInt_strip_zeros (k : Nat) (s : Str) :
    pyInt (List.replicate k '0' ++ s) = pyInt s := by
  unfold pyInt
  rw [List.foldl_append, foldl_pyInt_zeros]

theorem isdigit_padded (k n : Nat) :
    isdigit (List.replicate k '0' ++ natToDigits n) = true := by
  unfold isdigit
  have hne : List.replicate k '0' ++ natToDigits n ≠ [] := by
    simp [natToDigits_ne_nil n]
  rw [Bool.and_eq_true]
  constructor
  · simpa using hne
  · rw [List.all_append, Bool.and_eq_true]
    constructor
    · rw [List.all_eq_true]
      intro c hc
      rw [List.eq_of_mem_replicate hc]
      decide
    · rw [List.all_eq_true]
      exact natToDigits_all_digits n

/-! ### Shape of the emitted block -/

theorem mem_rowBlock {b : Str} {pls : List Str} (h : b ∈ rowBlock pls) :
    ∃ a ∈ pls, b = fieldRow a := by
  unfold rowBlock at h
  rw [List.mem_filterMap] at h
  rcases h with ⟨a, ha, hb⟩
  by_cases hc : (hasColon a && !(pyStrip a == [])) = true
  · rw [if_pos hc] at hb
    exact ⟨a, ha, (Option.some.inj hb).symm⟩
  · rw [if_neg hc] at hb
    cases hb

theorem no_newline_block (pls tail : List Str)
    (hp : ∀ l ∈ pls, '\n' ∉ l) (ht : ∀ l ∈ tail, '\n' ∉ l) :
    ∀ l ∈ headerBlock ++ rowBlock pls ++ footerBlock ++ tail, '\n' ∉ l := by
  have hhead : ∀ m ∈ headerBlock, '\n' ∉ m := by decide
  have hfoot : ∀ m ∈ footerBlock, '\n' ∉ m := by decide
  intro l hl
  simp only [List.append_assoc, List.mem_append] at hl
  rcases hl with hl | hl | hl | hl
  · exact hhead l hl
  · rcases mem_rowBlock hl with ⟨a, ha, rfl⟩
    exact not_newline_fieldRow (hp a ha)
  · exact hfoot l hl
  · exact ht l hl

theorem block_ne_nil (pls tail : List Str) :
    headerBlock ++ rowBlock pls ++ footerBlock ++ tail ≠ [] := by
  simp [headerBlock]

example : reformat ("Author: Jane Doe\nStatus: Draft\n\nBody text.\n").toList
    = (".. raw:: html\n\n   <div class=\"psp-preamble-table\">\n   <table class=\"psp-preamble\">\n   <tr><td class=\"psp-field\">Author:</td><td class=\"psp-value\">Jane Doe</td></tr>\n   <tr><td class=\"psp-field\">Status:</td><td class=\"psp-value\">Draft</td></tr>\n   </table>\n   </div>\n\n\nBody text.\n").toList := by
  decide

example : reformat ("No preamble here.\nJust text.\n").toList
    = ("No preamble here.\nJust text.\n").toList := by decide

example : process_link () () false [] ("0042").toList
    = (("PSP 42").toList, ("psp-000042").toList) := by decide

example : process_link () () false ("t").toList ("abc").toList
    = (("t").toList, ("abc").toList) := by decide

/-! ### The claims -/

/-- C1: for every input whose leading lines form a well-formed preamble (one
or more unindented colon-bearing lines followed by a first blank line),
`reformat` returns the directive/table header block, then exactly one table
row per collected field in the original order (field name = text before the
first colon, trimmed, rendered with a trailing colon; field value = text
after the first colon, trimmed, kept verbatim even if it contains further
colons), then closing table/wrapper markers and one blank line, then the
untouched remainder of the document starting at the boundary blank line. -/
theorem claimC1_wellformed_preamble_table (s : Str) (fields : List Str)
    (blankLine : Str) (rest : List Str)
    (hsplit : splitLines s = fields ++ blankLine :: rest)
    (hne : fields ≠ [])
    (hf : ∀ l ∈ fields, isField l = true)
    (hb : pyStrip blankLine = []) :
    reformat s = joinLines (headerBlock ++ fields.map fieldRow ++ footerBlock
        ++ blankLine :: rest)
      ∧ ∀ name value : Str, hasColon name = false →
        splitFirstColon (name ++ ':' :: value) = (name, value) := by
  constructor
  · unfold reformat process_psp_preamble
    rw [hsplit, scanPreamble_wellformed fields blankLine rest 0 hf hb]
    show (if fields = [] then s else _) = _
    rw [if_neg hne, Nat.zero_add, List.drop_left, rowBlock_eq_map fields hf]
  · intro name value hnc
    induction name with
    | nil => simp [splitFirstColon]
    | cons c t ih =>
      have hc : ¬ c = ':' := by
        intro hcc
        rw [hasColon, List.contains_cons, hcc] at hnc
        simp at hnc
      have ht : hasColon t = false := by
        rw [hasColon, List.contains_cons] at hnc
        simp only [Bool.or_eq_false_iff] at hnc
        exact hnc.2
      simp [List.cons_append, splitFirstColon, hc, if_false, List.append_eq,
        ih ht]

theorem claimC1_witness :
    (splitLines ("Author: Jane Doe\nStatus: Draft\n\nBody text.").toList
        = [("Author: Jane Doe").toList, ("Status: Draft").toList]
          ++ ([] : Str) :: [("Body text.").toList])
      ∧ ([("Author: Jane Doe").toList, ("Status: Draft").toList] ≠ [])
      ∧ (∀ l ∈ [("Author: Jane Doe").toList, ("Status: Draft").toList],
          isField l = true)
      ∧ reformat ("Author: Jane Doe\nStatus: Draft\n\nBody text.").toList
        = joinLines (headerBlock
            ++ [("Author: Jane Doe").toList, ("Status: Draft").toList].map fieldRow
            ++ footerBlock ++ ([] : Str) :: [("Body text.").toList]) :=
  ⟨by decide, by decide, by decide,
    (claimC1_wellformed_preamble_table
      ("Author: Jane Doe\nStatus: Draft\n\nBody text.").toList
      [("Author: Jane Doe").toList, ("Status: Draft").toList]
      [] [("Body text.").toList]
      (by decide) (by decide) (by decide) (by decide)).1⟩

/-- C5: for every string `s` that contains no colon-bearing unindented line
before its first blank line (the lines scanned before the first
whitespace-only line), `reformat s = s`; this covers the degenerate case of a
blank first line and the case where no field was collected. -/
theorem claimC5_no_field_passthrough (s : Str)
    (h : ∀ l ∈ (splitLines s).takeWhile (fun l => !(pyStrip l == [])),
      isField l = false) :
    reformat s = s := by
  unfold reformat process_psp_preamble
  cases hc : splitLines s with
  | nil => exact absurd hc (splitLines_ne_nil s)
  | cons l ls =>
    rw [hc] at h
    by_cases hb : pyStrip l = []
    · simp [scanPreamble, hb]
    · have hbq : (!(pyStrip l == [])) = true := by simpa using hb
      have hmem : l ∈ (l :: ls).takeWhile (fun l => !(pyStrip l == [])) := by
        rw [List.takeWhile_cons, hbq]
        simp
      have hnf := h l hmem
      simp [scanPreamble, hb, hnf]

theorem claimC5_witness :
    (∀ l ∈ (splitLines ("No preamble here.\nJust text.").toList).takeWhile
        (fun l => !(pyStrip l == [])), isField l = false)
      ∧ reformat ("No preamble here.\nJust text.").toList
        = ("No preamble here.\nJust text.").toList :=
  ⟨by decide,
    claimC5_no_field_passthrough ("No preamble here.\nJust text.").toList
      (by decide)⟩

/-- C6 counterexample: the claim says a line that starts with an indentation
character (such as a tab) is not a field and aborts detection, making
`reformat` return the input unchanged; but on `"\tA: b\n\nx"` the code treats
the tab-led colon-bearing first line as a field (only a leading *space* is
checked) and rewrites the document. -/
theorem claimC6_counterexample :
    reformat ("\tA: b\n\nx").toList ≠ ("\tA: b\n\nx").toList := by decide

/-- C6 (amended): during preamble scanning, a non-blank line is classified as
a field exactly when it contains a colon and its first character is not a
space (U+0020) — a line led by any other whitespace, e.g. a tab, still counts
as a field; any in-preamble-position line that is neither whitespace-only nor
such a field aborts detection entirely and `reformat` returns the input
unchanged, verbatim. -/
theorem claimC6_nonfield_aborts (s : Str) (pre : List Str) (bad : Str)
    (rest : List Str)
    (hsplit : splitLines s = pre ++ bad :: rest)
    (hpre : ∀ l ∈ pre, isField l = true)
    (hbad1 : pyStrip bad ≠ [])
    (hbad2 : (hasColon bad && !startsWithSpace bad) = false) :
    reformat s = s := by
  unfold reformat process_psp_preamble
  rw [hsplit, scanPreamble_abort pre bad rest 0 hpre hbad1 hbad2]

theorem claimC6_witness :
    (splitLines ("Author: x\nindented? no colon\n\nbody").toList
        = [("Author: x").toList]
          ++ ("indented? no colon").toList :: [[], ("body").toList])
      ∧ (∀ l ∈ [("Author: x").toList], isField l = true)
      ∧ pyStrip ("indented? no colon").toList ≠ []
      ∧ (hasColon ("indented? no colon").toList
          && !startsWithSpace ("indented? no colon").toList) = false
      ∧ reformat ("Author: x\nindented? no colon\n\nbody").toList
        = ("Author: x\nindented? no colon\n\nbody").toList :=
  ⟨by decide, by decide, by decide, by decide,
    claimC6_nonfield_aborts ("Author: x\nindented? no colon\n\nbody").toList
      [("Author: x").toList] ("indented? no colon").toList
      [[], ("body").toList] (by decide) (by decide) (by decide) (by decide)⟩

/-- C9: if the input contains no blank line at all and every line is an
unindented colon-bearing field line, the scanning loop exhausts the lines
without setting the preamble boundary, the boundary index stays `0`, and the
output contains the generated table rows for all lines followed by the entire
original input verbatim — every field line appears twice. -/
theorem claimC9_no_blank_duplicates (s : Str)
    (hf : ∀ l ∈ splitLines s, isField l = true) :
    reformat s = joinLines (headerBlock ++ (splitLines s).map fieldRow
      ++ footerBlock ++ splitLines s) := by
  unfold reformat process_psp_preamble
  rw [scanPreamble_allFields (splitLines s) 0 hf]
  show (if splitLines s = [] then s else _) = _
  rw [if_neg (splitLines_ne_nil s), List.drop_zero,
    rowBlock_eq_map (splitLines s) hf]

theorem claimC9_witness :
    (∀ l ∈ splitLines ("Author: Jane\nStatus: Draft").toList,
        isField l = true)
      ∧ reformat ("Author: Jane\nStatus: Draft").toList
        = joinLines (headerBlock
            ++ (splitLines ("Author: Jane\nStatus: Draft").toList).map fieldRow
            ++ footerBlock ++ splitLines ("Author: Jane\nStatus: Draft").toList) :=
  ⟨by decide,
    claimC9_no_blank_duplicates ("Author: Jane\nStatus: Draft").toList
      (by decide)⟩

/-- C2: for every non-negative integer `n` and every textual form of `n` with
zero or more leading zeros, `normalize(textOf(n), false)` returns the pair
`("PSP " + n, "psp-" + n zero-padded to six digits)` regardless of the
incoming title; in particular `"007"` and `"7"` both normalize to target
`"psp-000007"` and title `"PSP 7"`. -/
theorem claimC2_digit_normalization :
    (∀ (title : Str) (n k : Nat),
      process_link () () false title (List.replicate k '0' ++ natToDigits n)
        = (("PSP ").toList ++ natToDigits n, ("psp-").toList ++ pad6 n))
      ∧ process_link () () false [] ("007").toList
        = (("PSP 7").toList, ("psp-000007").toList)
      ∧ process_link () () false [] ("7").toList
        = (("PSP 7").toList, ("psp-000007").toList) := by
  refine ⟨?_, by decide, by decide⟩
  intro title n k
  unfold process_link
  rw [Bool.not_false, if_pos rfl, if_pos (isdigit_padded k n),
    pyInt_strip_zeros, pyInt_natToDigits]

/-- C7: `normalize` passes its inputs through unchanged in both
non-synthesizing cases — with an explicit title every `(title, target)` pair
is returned unchanged, and with no explicit title a non-digit target is
returned unchanged with no title synthesized. -/
theorem claimC7_passthrough (title target t : Str)
    (h : isdigit t = false) :
    process_link () () true title target = (title, target)
      ∧ process_link () () false title t = (title, t) := by
  constructor
  · rfl
  · unfold process_link
    rw [Bool.not_false, if_pos rfl, if_neg (by rw [h]; exact Bool.false_ne_true),
      if_neg (by rw [h, Bool.and_false]; exact Bool.false_ne_true)]

theorem claimC7_witness :
    isdigit ("abc").toList = false
      ∧ process_link () () true ("T").toList ("042").toList
          = (("T").toList, ("042").toList)
      ∧ process_link () () false ("T").toList ("abc").toList
          = (("T").toList, ("abc").toList) :=
  ⟨by decide,
    claimC7_passthrough ("T").toList ("042").toList ("abc").toList (by decide)⟩

/-- C8: the second branch of `process_link`, which special-cases all-digit
targets starting with `"0"`, is unreachable — for every input the two-branch
implementation computes the same `(title, target)` pair as the single
digit-only-branch normalizer, because the digit-only branch already matches
any all-digit string, padded or not. -/
theorem claimC8_dead_branch (has_explicit_title : Bool) (title target : Str) :
    process_link () () has_explicit_title title target
      = normalize_single_branch has_explicit_title title target := by
  unfold process_link normalize_single_branch
  cases has_explicit_title with
  | true => rfl
  | false =>
    cases hd : isdigit target with
    | true => rfl
    | false =>
      rw [Bool.and_false]
      rfl

/-- C10: the reference-normalization hook is deterministic and independent of
its environment parameters — two invocations of `process_link` agreeing on
`(has_explicit_title, title, target)` but with arbitrarily different `env`
and `refnode` arguments (even of different types) return equal pairs. -/
theorem claimC10_env_independent {α β γ δ : Type} (env1 : α) (refnode1 : β)
    (env2 : γ) (refnode2 : δ) (has_explicit_title : Bool)
    (title target : Str) :
    process_link env1 refnode1 has_explicit_title title target
      = process_link env2 refnode2 has_explicit_title title target := rfl

/-- On ASCII characters the `str.isdigit` test coincides with the
decimal-digit test accepted by `int`: the superscript digits all lie above
U+007F. -/
theorem isPyDigitChar_ascii (c : Char) (h : c.toNat < 128) :
    isPyDigitChar c = ('0' ≤ c && c ≤ '9') := by
  have h1 : ¬ c = '¹' := by intro hc; rw [hc] at h; exact absurd h (by decide)
  have h2 : ¬ c = '²' := by intro hc; rw [hc] at h; exact absurd h (by decide)
  have h3 : ¬ c = '³' := by intro hc; rw [hc] at h; exact absurd h (by decide)
  simp [isPyDigitChar, h1, h2, h3]

theorem all_isPyDigitChar_ascii (s : Str) (h : ∀ c ∈ s, c.toNat < 128) :
    s.all isPyDigitChar = s.all (fun c => '0' ≤ c && c ≤ '9') := by
  induction s with
  | nil => rfl
  | cons a t ih =>
    rw [List.all_cons, List.all_cons,
      isPyDigitChar_ascii a (h a (List.mem_cons_self a t)),
      ih (fun c hc => h c (List.mem_cons_of_mem a hc))]

theorem pyIsdigit_ascii (s : Str) (h : ∀ c ∈ s, c.toNat < 128) :
    pyIsdigit s = isdigit s := by
  unfold pyIsdigit isdigit
  rw [all_isPyDigitChar_ascii s h]

/-- On all-ASCII targets the exception-aware hook never fails and agrees
with the total model used by the other claims. -/
theorem process_link_exc_ascii (has_explicit_title : Bool)
    (title target : Str) (h : ∀ c ∈ target, c.toNat < 128) :
    process_link_exc has_explicit_title title target
      = some (process_link () () has_explicit_title title target) := by
  unfold process_link_exc process_link
  cases has_explicit_title with
  | true => rfl
  | false =>
    rw [Bool.not_false]
    simp only [if_true]
    rw [pyIsdigit_ascii target h]
    by_cases hd : isdigit target = true
    · simp only [hd, if_true]
      unfold pyIntOpt
      rw [if_pos hd]
    · have hd2 : isdigit target = false := by
        cases hq : isdigit target
        · rfl
        · exact absurd hq hd
      simp [hd2]

/-- C4: the claim — both core functions are total and never raise — is the
clear intent of the code, but the code breaks it in `process_link`: Python
`str.isdigit` accepts the superscript two (U+00B2, numeric type Digit), so a
target consisting of that character with no explicit title enters the digit
branch, where `int` rejects it and raises an uncaught ValueError (the guard
should have been `isdecimal`).  The theorem evaluates the code at the
failing input: the guard accepts the superscript, `int` is undefined on it,
the hook call fails; `reformat`, by contrast, yields an output on every
input. -/
theorem claimC4_isdigit_int_mismatch :
    pyIsdigit ['²'] = true
      ∧ pyIntOpt ['²'] = none
      ∧ process_link_exc false [] ['²'] = none
      ∧ ∀ s : Str, ∃ r : Str, reformat s = r :=
  ⟨by decide, by decide, by decide, fun s => ⟨reformat s, rfl⟩⟩

/-- The extraction loop on any emitted block: the first line
`".. raw:: html"` is itself an unindented colon-bearing line, and the second
line is blank, so scanning stops at index 1 with that single field. -/
theorem scanPreamble_block (pls tail : List Str) :
    scanPreamble (headerBlock ++ rowBlock pls ++ footerBlock ++ tail) 0
      = some ([(".. raw:: html").toList], 1) := by
  have h1 : ¬ pyStrip (".. raw:: html").toList = [] := by decide
  have h2 : isField (".. raw:: html").toList = true := by decide
  have h3 : pyStrip ([] : Str) = [] := rfl
  simp only [headerBlock, List.cons_append, List.nil_append, List.append_assoc]
  simp [scanPreamble, h1, h2, h3]
  decide

/-- C3 counterexample: `reformat` is not idempotent.  On `"A: b\n\nx"` the
first application emits the table block, whose leading line
`".. raw:: html"` again matches the field pattern, so the second application
wraps it into a second table. -/
theorem claimC3_counterexample :
    reformat (reformat ("A: b\n\nx").toList)
      ≠ reformat ("A: b\n\nx").toList := by decide

/-- C3 (amended): `reformat` is idempotent exactly at its fixed points —
`reformat (reformat s) = reformat s` holds if and only if `reformat s = s`.
Whenever `reformat` transforms its input, the leading block of the output still
matches the field-line pattern (its first line `".. raw:: html"` is
unindented and colon-bearing), so a second application transforms it again. -/
theorem claimC3_idempotent_iff_fixed (s : Str) :
    reformat (reformat s) = reformat s ↔ reformat s = s := by
  constructor
  · intro h
    by_contra hne
    rcases hscan : scanPreamble (splitLines s) 0 with _ | ⟨pl, e⟩
    · exact hne (by unfold reformat process_psp_preamble; rw [hscan])
    · by_cases hpl : pl = []
      · refine hne ?_
        unfold reformat process_psp_preamble
        rw [hscan]
        show (if pl = [] then s else _) = s
        rw [if_pos hpl]
      · set M := headerBlock ++ rowBlock pl ++ footerBlock
          ++ (splitLines s).drop e with hM
        have hre : reformat s = joinLines M := by
          unfold reformat process_psp_preamble
          rw [hscan]
          show (if pl = [] then s else joinLines M) = joinLines M
          rw [if_neg hpl]
        have hplNl : ∀ l ∈ pl, '\n' ∉ l := fun l hl =>
          not_newline_mem_splitLines s l
            (mem_of_scanPreamble (splitLines s) 0 pl e hscan l hl)
        have htailNl : ∀ l ∈ (splitLines s).drop e, '\n' ∉ l := fun l hl =>
          not_newline_mem_splitLines s l (List.drop_subset _ _ hl)
        have hnoNlM : ∀ l ∈ M, '\n' ∉ l := by
          rw [hM]
          exact no_newline_block pl _ hplNl htailNl
        have hMne : M ≠ [] := by
          rw [hM]
          exact block_ne_nil pl _
        have hsplitM : splitLines (reformat s) = M := by
          rw [hre]
          exact splitLines_joinLines M hMne hnoNlM
        have hscan2 : scanPreamble M 0
            = some ([(".. raw:: html").toList], 1) := by
          rw [hM]
          exact scanPreamble_block pl _
        have hfin : ∀ u : Str, splitLines u = M →
            reformat u = joinLines (headerBlock
              ++ rowBlock [(".. raw:: html").toList] ++ footerBlock
              ++ M.drop 1) := by
          intro u hu
          unfold reformat process_psp_preamble
          rw [hu, hscan2]
          show (if [(".. raw:: html").toList] = ([] : List Str) then u
            else _) = _
          rw [if_neg (by simp)]
        have hnoNl2 : ∀ l ∈ headerBlock
            ++ rowBlock [(".. raw:: html").toList] ++ footerBlock
            ++ M.drop 1, '\n' ∉ l := by
          apply no_newline_block
          · decide
          · intro l hl
            exact hnoNlM l (List.drop_subset _ _ hl)
        have hsplit2 : splitLines (reformat (reformat s))
            = headerBlock ++ rowBlock [(".. raw:: html").toList]
              ++ footerBlock ++ M.drop 1 := by
          rw [hfin (reformat s) hsplitM]
          exact splitLines_joinLines _ (block_ne_nil _ _) hnoNl2
        have heq : headerBlock ++ rowBlock [(".. raw:: html").toList]
            ++ footerBlock ++ M.drop 1 = M := by
          rw [← hsplit2, ← hsplitM, h]
        have hrow : rowBlock [(".. raw:: html").toList]
            = [fieldRow (".. raw:: html").toList] := by decide
        have hlen := congrArg List.length heq
        rw [hrow] at hlen
        simp only [List.length_append, List.length_drop, headerBlock,
          footerBlock, List.length_cons, List.length_nil,
          List.length_singleton] at hlen
        omega
  · intro h
    rw [h]
    exact h
